import Mathlib

/-!
Verification of the document model and rendering overrides of a static
blog generator written in Go.  The generator parses front matter from raw
text buffers, links documents into a parent/child graph, and renders
markdown through a set of renderer-callback overrides (headings, links,
images, math, custom tags, escapes).

Go byte strings and byte slices are embedded as lists of characters
(`List Char`); every byte the code inspects is ASCII, so byte-level and
character-level operations agree.  Go's `time.Time` values are embedded
as `Nat`, with `0` standing for Go's zero time (`IsZero`).  A Go runtime
panic (out-of-range index or slice) is embedded as `Option.none`, kept
distinct from an `error` return, which is `Except.error`.
-/

namespace Block

/-- Characters that escape themselves in `handleMarkdownEscapes`
(`src/post.go`): backslash, single and double quote, parens, braces,
brackets and angle brackets. -/
def selfEscaping (c : Char) : Bool :=
  c = '\\' || c = Char.ofNat 39 || c = '"' || c = '(' || c = ')' ||
  c = '{' || c = '}' || c = '[' || c = ']' || c = '<' || c = '>'

/-- `handleMarkdownEscapes` from `src/post.go`: scans for backslashes; a
backslash followed by a self-escaping character emits the bare character,
a backslash followed by any other character emits both characters
unchanged.  The Go loop jumps from backslash to backslash with
`bytes.IndexByte` and copies the text in between verbatim; this is
embedded as the equivalent character-by-character recursion.  A trailing
lone backslash makes the Go code slice `text[i:i+2]` past the end of the
buffer, embedded as `none`. -/
def handleMarkdownEscapes : List Char → Option (List Char)
  | [] => some []
  | c :: rest =>
    if c = '\\' then
      match rest with
      | [] => none
      | d :: rest' =>
        (handleMarkdownEscapes rest').map
          (fun r => (if selfEscaping d then [d] else ['\\', d]) ++ r)
    else
      (handleMarkdownEscapes rest).map (fun r => c :: r)

/-- Unfolding `handleMarkdownEscapes` at an ordinary character. -/
theorem hme_cons_ne (c : Char) (rest : List Char) (hc : ¬(c = '\\')) :
    handleMarkdownEscapes (c :: rest) =
      (handleMarkdownEscapes rest).map (fun r => c :: r) := by
  rw [handleMarkdownEscapes.eq_def]
  simp [hc]

/-- Unfolding `handleMarkdownEscapes` at a backslash pair. -/
theorem hme_cons_bs (d : Char) (rest' : List Char) :
    handleMarkdownEscapes ('\\' :: d :: rest') =
      (handleMarkdownEscapes rest').map
        (fun r => (if selfEscaping d then [d] else ['\\', d]) ++ r) := by
  rw [handleMarkdownEscapes.eq_def]
  simp

/-- Text containing no backslash passes through `handleMarkdownEscapes`
unchanged. -/
theorem hme_no_backslash (t : List Char) (h : '\\' ∉ t) :
    handleMarkdownEscapes t = some t := by
  induction t with
  | nil => rfl
  | cons c rest ih =>
    have hc : ¬(c = '\\') := fun hcc => h (hcc ▸ List.mem_cons_self c rest)
    have hr : '\\' ∉ rest := fun hm => h (List.mem_cons_of_mem c hm)
    rw [hme_cons_ne c rest hc, ih hr]
    rfl

/-- Processing a backslash pair after a backslash-free run: the run is
copied verbatim, the pair contributes `piece`, and the rest is processed
recursively. -/
theorem hme_append_pair (a b : List Char) (c : Char) (ha : '\\' ∉ a) :
    handleMarkdownEscapes (a ++ '\\' :: c :: b) =
      (handleMarkdownEscapes b).map
        (fun r => a ++ (if selfEscaping c then [c] else ['\\', c]) ++ r) := by
  induction a with
  | nil =>
    rw [List.nil_append, hme_cons_bs]
    rcases handleMarkdownEscapes b with _ | r <;> simp
  | cons x a ih =>
    have hx : ¬(x = '\\') := fun hxx => ha (hxx ▸ List.mem_cons_self x a)
    have ha' : '\\' ∉ a := fun hm => ha (List.mem_cons_of_mem x hm)
    rw [List.cons_append, hme_cons_ne x _ hx, ih ha']
    rcases handleMarkdownEscapes b with _ | r <;> simp

/-- C9: each backslash followed by a self-escaping punctuation character
is replaced by that bare character, each backslash followed by any other
character passes both characters through unchanged, and text containing
no backslash is returned unchanged by `handleMarkdownEscapes`. -/
theorem c9_markdown_escapes (t a b : List Char) (c : Char) :
    ('\\' ∉ t → handleMarkdownEscapes t = some t) ∧
    ('\\' ∉ a → selfEscaping c = true →
      handleMarkdownEscapes (a ++ '\\' :: c :: b) =
        (handleMarkdownEscapes b).map (fun r => a ++ c :: r)) ∧
    ('\\' ∉ a → selfEscaping c = false →
      handleMarkdownEscapes (a ++ '\\' :: c :: b) =
        (handleMarkdownEscapes b).map (fun r => a ++ '\\' :: c :: r)) := by
  refine ⟨hme_no_backslash t, fun ha hc => ?_, fun ha hc => ?_⟩
  · rw [hme_append_pair a b c ha]
    simp [hc]
  · rw [hme_append_pair a b c ha]
    simp [hc]

/-- Witness for C9 at concrete inputs: a backslash-brace pair renders as
the bare brace, a backslash before a non-escaping character passes
through, and backslash-free text is unchanged. -/
theorem c9_witness :
    handleMarkdownEscapes ['a', '\\', '{', 'b'] = some ['a', '{', 'b'] ∧
    handleMarkdownEscapes ['\\', 'q'] = some ['\\', 'q'] ∧
    handleMarkdownEscapes ['h', 'i'] = some ['h', 'i'] := by
  refine ⟨?_, ?_, ?_⟩
  · have h := (c9_markdown_escapes [] ['a'] ['b'] '{').2.1 (by decide) (by decide)
    simpa [handleMarkdownEscapes] using h
  · have h := (c9_markdown_escapes [] [] [] 'q').2.2 (by decide) (by decide)
    simpa [handleMarkdownEscapes] using h
  · exact (c9_markdown_escapes ['h', 'i'] [] [] 'q').1 (by decide)

/-! ## Document model (`src/post.go`) -/

/-- `DocType` from `src/post.go`: post, collection or page. -/
inductive DocType where
  | post
  | collection
  | page
deriving DecidableEq, Repr

/-- `PostID` from `src/post.go`: a string identifier, unique per document. -/
abbrev PostID := List Char

/-- The fields of `Post` from `src/post.go` that the verified operations
read or write.  `published` and `updated` are `time.Time` values embedded
as `Nat` (0 = Go's zero time).  Rendering-output fields (`Content`,
`Href`, flags) and the back-pointers built by `LinkPosts` are not needed
by any claim and are not embedded. -/
structure Post where
  id : PostID := []
  type : DocType := DocType.post
  published : Nat := 0
  updated : Nat := 0
  title : List Char := []
  parentId : PostID := []
  markdown : List Char := []
deriving DecidableEq, Repr

/-- `Post.Standalone` from `src/post.go`: page documents are standalone. -/
def Post.standalone (post : Post) : Bool :=
  post.type = DocType.page

/-- `Post.RenderedName` from `src/post.go`: the permalink file name,
`"p" + id + ".html"`. -/
def Post.renderedName (post : Post) : List Char :=
  'p' :: post.id ++ ".html".data

/-- `Blog.FindPostById` from `src/main.go`: first post in the list with
the given id, if any. -/
def findPostById (posts : List Post) (which : PostID) : Option Post :=
  posts.find? (fun post => decide (post.id = which))

/-- A found post carries the id it was looked up by. -/
theorem findPostById_id (posts : List Post) (which : PostID) (target : Post)
    (h : findPostById posts which = some target) : target.id = which := by
  unfold findPostById at h
  have hp :=
    @List.find?_some Post (fun post => decide (post.id = which)) target posts h
  exact of_decide_eq_true hp

/-! ## Internal-link rewriting (`postHtmlRenderer.Link`, `src/post.go`) -/

/-- `parsePostLink` from `src/post.go`: a link target of length at least
2 starting with the sentinel character `*` is an internal post link; the
returned id is the target minus the sentinel, empty otherwise. -/
def parsePostLink (link : List Char) : PostID :=
  if link.length < 2 then []
  else
    match link with
    | '*' :: rest => rest
    | _ => []

/-- Index of the first occurrence of a character, as `bytes.IndexByte` /
`strings.IndexRune` (which the Go code applies to ASCII characters). -/
def idxOfChar (c : Char) : List Char → Option Nat
  | [] => none
  | x :: xs => if x = c then some 0 else (idxOfChar c xs).map (· + 1)

/-- The fragment split in `postHtmlRenderer.Link`: if the id contains a
`#`, the id is cut there and the fragment (including the `#`) kept. -/
def splitFragment (linkTo : PostID) : PostID × List Char :=
  match idxOfChar '#' linkTo with
  | none => (linkTo, [])
  | some i => (linkTo.take i, linkTo.drop i)

/-- Go's `%q` format verb, modelled as plain double-quoting (exact for
strings without characters that `%q` would escape). -/
def goQuote (s : List Char) : List Char :=
  '"' :: s ++ ['"']

/-- The error recorded by `postHtmlRenderer.Link` for an unresolved
internal link: names the document and the offending identifier. -/
def linkErrMsg (postId linkTo : PostID) : List Char :=
  goQuote postId ++ ": contains link to post ".data ++ goQuote linkTo ++
    " which does not exist.".data

/-- The attribute escaping applied by the external markup engine when
emitting an anchor (ampersand, angle brackets, double quote). -/
def escapeAttrChar (c : Char) : List Char :=
  if c = '&' then "&amp;".data
  else if c = '<' then "&lt;".data
  else if c = '>' then "&gt;".data
  else if c = '"' then "&quot;".data
  else [c]

/-- Attribute escaping lifted to strings. -/
def escapeAttr : List Char → List Char
  | [] => []
  | c :: rest => escapeAttrChar c ++ escapeAttr rest

/-- Modelled from the spec: the external markup engine's default anchor
emission (spec section 4.4, "default pass-through behavior"), which the
`Link` override invokes with its possibly rewritten arguments — an
anchor whose href is the link, with an optional title attribute and the
visible text as body.  The engine itself (blackfriday) is an external
collaborator and is not part of this repository. -/
def htmlLinkBase (link title content : List Char) : List Char :=
  "<a href=\"".data ++ escapeAttr link ++
    (if 0 < title.length then "\" title=\"".data ++ escapeAttr title else []) ++
    "\">".data ++ content ++ "</a>".data

/-- The output written and the error recorded by one renderer callback. -/
structure CallbackResult where
  out : List Char
  err : Option (List Char)
deriving DecidableEq, Repr

/-- `postHtmlRenderer.Link` from `src/post.go`: if the target parses as
an internal post link, split off any `#fragment`, look the id up in the
document set; on success rewrite the link to the target's permalink plus
fragment and, when the visible text is exactly `%`, replace it by the
target's title; on failure record an error naming the id and leave the
arguments unchanged.  Either way the (escape-processed) title and the
final link and content are handed to the engine's anchor emission.
`none` models the Go panic when `handleMarkdownEscapes` slices past the
end of the title. -/
def linkRender (posts : List Post) (postId : PostID)
    (link title content : List Char) : Option CallbackResult :=
  let linkTo := parsePostLink link
  let st :=
    if linkTo = [] then (link, content, (none : Option (List Char)))
    else
      let pair := splitFragment linkTo
      match findPostById posts pair.1 with
      | some target =>
          (target.renderedName ++ pair.2,
            (if content = ['%'] then target.title else content),
            none)
      | none => (link, content, some (linkErrMsg postId pair.1))
  match handleMarkdownEscapes title with
  | none => none
  | some t => some ⟨htmlLinkBase st.1 t st.2.1, st.2.2⟩

/-- A character absent from a string is never found. -/
theorem idxOfChar_not_mem (c : Char) (s : List Char) (h : c ∉ s) :
    idxOfChar c s = none := by
  induction s with
  | nil => rfl
  | cons x xs ih =>
    have hx : ¬(x = c) := fun hxc => h (hxc ▸ List.mem_cons_self x xs)
    have hxs : c ∉ xs := fun hm => h (List.mem_cons_of_mem x hm)
    simp [idxOfChar, hx, ih hxs]

/-- The first occurrence after a run that lacks the character is right
after the run. -/
theorem idxOfChar_append_self (c : Char) (s r : List Char) (h : c ∉ s) :
    idxOfChar c (s ++ c :: r) = some s.length := by
  induction s with
  | nil => simp [idxOfChar]
  | cons x xs ih =>
    have hx : ¬(x = c) := fun hxc => h (hxc ▸ List.mem_cons_self x xs)
    have hxs : c ∉ xs := fun hm => h (List.mem_cons_of_mem x hm)
    simp [idxOfChar, hx, ih hxs]

/-- `splitFragment` recovers the id and the fragment when the id itself
contains no `#` and the fragment is absent or starts with `#`. -/
theorem splitFragment_eq (tid frag : List Char) (hhash : '#' ∉ tid)
    (hfrag : frag = [] ∨ ∃ f, frag = '#' :: f) :
    splitFragment (tid ++ frag) = (tid, frag) := by
  rcases hfrag with rfl | ⟨f, rfl⟩
  · rw [List.append_nil]
    unfold splitFragment
    rw [idxOfChar_not_mem '#' tid hhash]
  · unfold splitFragment
    rw [idxOfChar_append_self '#' tid f hhash]
    simp only [List.take_left, List.drop_left]

/-- `parsePostLink` strips the sentinel from a nonempty-id target. -/
theorem parsePostLink_star (tid frag : List Char) (htid : tid ≠ []) :
    parsePostLink ('*' :: tid ++ frag) = tid ++ frag := by
  match tid, htid with
  | t :: ts, _ =>
    simp [parsePostLink]

/-- C1: a rendered link whose target is the sentinel `*` followed by an
identifier that resolves to an existing document has its href rewritten
to the target's permalink `"p" + id + ".html"`, preserving any
`#fragment` suffix of the original target, and when the visible text is
exactly `%` it is replaced by the target document's title. -/
theorem c1_internal_link_resolved (posts : List Post) (pid : PostID)
    (tid frag title content t : List Char) (target : Post)
    (htid : tid ≠ []) (hhash : '#' ∉ tid)
    (hfrag : frag = [] ∨ ∃ f, frag = '#' :: f)
    (hfind : findPostById posts tid = some target)
    (ht : handleMarkdownEscapes title = some t) :
    linkRender posts pid ('*' :: tid ++ frag) title content =
      some ⟨htmlLinkBase (target.renderedName ++ frag) t
              (if content = ['%'] then target.title else content), none⟩ ∧
    target.renderedName = 'p' :: target.id ++ ".html".data ∧
    target.id = tid := by
  refine ⟨?_, rfl, findPostById_id posts tid target hfind⟩
  unfold linkRender
  rw [parsePostLink_star tid frag htid]
  have hne : ¬(tid ++ frag = []) := by
    intro hnil
    exact htid (List.append_eq_nil.mp hnil).1
  simp only [if_neg hne, splitFragment_eq tid frag hhash hfrag, hfind, ht]

/-- Witness for C1, mirroring the spec's example: the link `[%](*2)`
where document id 2 has title "Bar" renders as an anchor with href
`p2.html` and visible text `Bar`. -/
theorem c1_witness :
    linkRender [{ id := "2".data, title := "Bar".data }] "A".data
        "*2".data [] "%".data =
      some ⟨"<a href=\"p2.html\">Bar</a>".data, none⟩ := by
  have h := c1_internal_link_resolved
    [{ id := "2".data, title := "Bar".data }] "A".data
    "2".data [] [] "%".data [] { id := "2".data, title := "Bar".data }
    (by decide) (by decide) (Or.inl rfl) (by decide) rfl
  have h1 := h.1
  rw [List.append_nil] at h1
  rw [show ("*2".data : List Char) = '*' :: "2".data from by decide, h1]
  decide

/-- C2 counterexample: with an empty document set, the link `[x](*9)`
records the unresolved-link error, but an anchor for it still appears in
the output — the override passes the original target unchanged to the
engine's anchor emission, so the link is not left unrendered. -/
theorem c2_counterexample :
    linkRender [] "A".data "*9".data [] "x".data =
      some ⟨"<a href=\"*9\">x</a>".data,
        some "\"A\": contains link to post \"9\" which does not exist.".data⟩ := by
  decide

/-- C2 (amended): a rendered link whose sentinel target does not resolve
records a document-level error naming the offending identifier, and the
link is still rendered — the override hands the original, unrewritten
target to the engine's anchor emission — while the rest of the document
continues to render (the override returns normally). -/
theorem c2_unresolved_link_amended (posts : List Post) (pid : PostID)
    (tid frag title content t : List Char)
    (htid : tid ≠ []) (hhash : '#' ∉ tid)
    (hfrag : frag = [] ∨ ∃ f, frag = '#' :: f)
    (hfind : findPostById posts tid = none)
    (ht : handleMarkdownEscapes title = some t) :
    linkRender posts pid ('*' :: tid ++ frag) title content =
      some ⟨htmlLinkBase ('*' :: tid ++ frag) t content,
        some (linkErrMsg pid tid)⟩ ∧
    tid <:+: linkErrMsg pid tid := by
  constructor
  · unfold linkRender
    rw [parsePostLink_star tid frag htid]
    have hne : ¬(tid ++ frag = []) := by
      intro hnil
      exact htid (List.append_eq_nil.mp hnil).1
    simp only [if_neg hne, splitFragment_eq tid frag hhash hfrag, hfind, ht]
  · refine ⟨goQuote pid ++ ": contains link to post \"".data,
      "\" which does not exist.".data, ?_⟩
    simp [linkErrMsg, goQuote]

/-- Witness for C2's amended theorem at a concrete input: the error
names id 9 and the anchor with the original target is emitted. -/
theorem c2_witness :
    linkRender [] "A".data ('*' :: "9".data) [] "x".data =
      some ⟨htmlLinkBase ('*' :: "9".data) [] "x".data,
        some (linkErrMsg "A".data "9".data)⟩ ∧
    "9".data <:+: linkErrMsg "A".data "9".data := by
  have h := c2_unresolved_link_amended [] "A".data "9".data [] [] "x".data []
    (by decide) (by decide) (Or.inl rfl) (by decide) rfl
  refine ⟨?_, h.2⟩
  have h1 := h.1
  rwa [List.append_nil] at h1

/-! ## Title extraction from level-1 headings (`Post.Header`) -/

/-- Modelled from the spec: the external engine's default heading
emission, which the `Header` override forwards to for every level other
than 1 (spec section 4.4: "all other levels pass through unchanged"). -/
def baseHeader (level : Nat) (text : List Char) : List Char :=
  "<h".data ++ (toString level).data ++ ">".data ++ text ++
    "</h".data ++ (toString level).data ++ ">".data

/-- State mutated by the `Post.Header` override during the analysis
traversal: the document title, the output buffer, and the number of
`Warnf` warnings issued. -/
structure HeadState where
  title : List Char
  out : List Char
  warnings : Nat
deriving DecidableEq, Repr

/-- `Post.Header` from `src/post.go`: levels other than 1 are forwarded
to the engine's default emission.  For a level-1 heading, a warning is
issued when a title is already set; then the heading text (what `text()`
appends to the buffer) is taken as the new title and truncated away from
the buffer, so level-1 headings never reach the output. -/
def headerStep (st : HeadState) (level : Nat) (text : List Char) : HeadState :=
  if level ≠ 1 then { st with out := st.out ++ baseHeader level text }
  else
    { title := text,
      out := st.out,
      warnings := st.warnings + (if st.title ≠ [] then 1 else 0) }

/-- The analysis traversal driving `Post.Header` over the headings of a
document body, in order. -/
def processHeadings (st : HeadState) : List (Nat × List Char) → HeadState
  | [] => st
  | (l, t) :: rest => processHeadings (headerStep st l t) rest

/-- The texts of the level-1 headings of a body, in order. -/
def lvl1Texts (hs : List (Nat × List Char)) : List (List Char) :=
  (hs.filter (fun h => h.1 == 1)).map (fun h => h.2)

/-- The output contributed by the non-level-1 headings of a body. -/
def nonL1Out : List (Nat × List Char) → List Char
  | [] => []
  | (l, t) :: rest => (if l = 1 then [] else baseHeader l t) ++ nonL1Out rest

/-- Whether a body contains a level-1 heading. -/
def hasLevel1 (hs : List (Nat × List Char)) : Bool :=
  hs.any (fun h => h.1 == 1)

/-- The traversal processes appended heading lists in sequence. -/
theorem processHeadings_append (st : HeadState)
    (xs ys : List (Nat × List Char)) :
    processHeadings st (xs ++ ys) = processHeadings (processHeadings st xs) ys := by
  induction xs generalizing st with
  | nil => rfl
  | cons x xs ih =>
    obtain ⟨l, t⟩ := x
    simp [processHeadings, ih]

/-- After the traversal, the title is the text of the last level-1
heading, or the initial title when there is none. -/
theorem processHeadings_title (st : HeadState) (hs : List (Nat × List Char)) :
    (processHeadings st hs).title = (lvl1Texts hs).getLastD st.title := by
  induction hs generalizing st with
  | nil => rfl
  | cons x rest ih =>
    obtain ⟨l, t⟩ := x
    by_cases hl : l = 1
    · subst hl
      rw [show processHeadings st ((1, t) :: rest) =
          processHeadings (headerStep st 1 t) rest from rfl, ih]
      have h1 : (headerStep st 1 t).title = t := by
        simp [headerStep]
      have h2 : lvl1Texts ((1, t) :: rest) = t :: lvl1Texts rest := by
        simp [lvl1Texts]
      rw [h1, h2, List.getLastD_cons]
    · rw [show processHeadings st ((l, t) :: rest) =
          processHeadings (headerStep st l t) rest from rfl, ih]
      have h1 : (headerStep st l t).title = st.title := by
        simp [headerStep, hl]
      have h2 : lvl1Texts ((l, t) :: rest) = lvl1Texts rest := by
        simp [lvl1Texts, hl]
      rw [h1, h2]

/-- After the traversal, the output is the initial output followed by the
default emissions of the non-level-1 headings only: every level-1 heading
is suppressed. -/
theorem processHeadings_out (st : HeadState) (hs : List (Nat × List Char)) :
    (processHeadings st hs).out = st.out ++ nonL1Out hs := by
  induction hs generalizing st with
  | nil => simp [processHeadings, nonL1Out]
  | cons x rest ih =>
    obtain ⟨l, t⟩ := x
    by_cases hl : l = 1
    · subst hl
      rw [show processHeadings st ((1, t) :: rest) =
          processHeadings (headerStep st 1 t) rest from rfl, ih]
      simp [headerStep, nonL1Out]
    · rw [show processHeadings st ((l, t) :: rest) =
          processHeadings (headerStep st l t) rest from rfl, ih]
      simp [headerStep, hl, nonL1Out]

/-- The warning count never decreases. -/
theorem processHeadings_warnings_mono (st : HeadState)
    (hs : List (Nat × List Char)) :
    st.warnings ≤ (processHeadings st hs).warnings := by
  induction hs generalizing st with
  | nil => exact Nat.le_refl _
  | cons x rest ih =>
    obtain ⟨l, t⟩ := x
    refine Nat.le_trans ?_ (ih (headerStep st l t))
    by_cases hl : l = 1 <;> simp [headerStep, hl]

/-- Once a nonempty title is set, any further level-1 heading raises at
least one warning. -/
theorem processHeadings_warns (st : HeadState) (hs : List (Nat × List Char))
    (ht : st.title ≠ []) (hl1 : hasLevel1 hs = true) :
    st.warnings + 1 ≤ (processHeadings st hs).warnings := by
  induction hs generalizing st with
  | nil => simp [hasLevel1] at hl1
  | cons x rest ih =>
    obtain ⟨l, t⟩ := x
    by_cases hl : l = 1
    · subst hl
      refine Nat.le_trans ?_
        (processHeadings_warnings_mono (headerStep st 1 t) rest)
      simp [headerStep, ht]
    · have hrest : hasLevel1 rest = true := by
        have hbeq : (l == 1) = false := beq_eq_false_iff_ne.mpr hl
        simpa [hasLevel1, hbeq] using hl1
      have htitle : (headerStep st l t).title = st.title := by
        simp [headerStep, hl]
      have hwarn : (headerStep st l t).warnings = st.warnings := by
        simp [headerStep, hl]
      have := ih (headerStep st l t) (htitle ▸ ht) hrest
      rw [hwarn] at this
      exact this

/-- C3 counterexample: a body with two level-1 headings "A" then "B"
leaves the title equal to "B", not to the first heading's text "A" — the
override warns on the duplicate but then overwrites the title. -/
theorem c3_counterexample :
    (processHeadings ⟨[], [], 0⟩ [(1, "A".data), (1, "B".data)]).title =
        "B".data ∧
    ¬((processHeadings ⟨[], [], 0⟩ [(1, "A".data), (1, "B".data)]).title =
        "A".data) ∧
    (processHeadings ⟨[], [], 0⟩ [(1, "A".data), (1, "B".data)]).warnings = 1 ∧
    (processHeadings ⟨[], [], 0⟩ [(1, "A".data), (1, "B".data)]).out = [] := by
  decide

/-- C3 (amended): in a document body with two or more level-1 headings,
the first level-1 heading's text becomes the title, but each subsequent
level-1 heading produces a non-fatal warning and then overwrites the
title with its own text, so the final title equals the last level-1
heading's text; every level-1 heading is suppressed from the rendered
output. -/
theorem c3_title_amended (st : HeadState) (hs a b : List (Nat × List Char))
    (t : List Char) (hsplit : hs = a ++ (1, t) :: b) (ht : t ≠ [])
    (hb : hasLevel1 b = true) :
    (processHeadings st hs).title = (lvl1Texts hs).getLastD st.title ∧
    (processHeadings st hs).out = st.out ++ nonL1Out hs ∧
    st.warnings + 1 ≤ (processHeadings st hs).warnings := by
  refine ⟨processHeadings_title st hs, processHeadings_out st hs, ?_⟩
  subst hsplit
  rw [show a ++ (1, t) :: b = (a ++ [(1, t)]) ++ b from by simp,
    processHeadings_append]
  set st1 := processHeadings st (a ++ [(1, t)]) with hst1
  have htitle1 : st1.title = t := by
    rw [hst1, processHeadings_append]
    rfl
  have hmono : st.warnings ≤ st1.warnings := processHeadings_warnings_mono st _
  have := processHeadings_warns st1 b (htitle1 ▸ ht) hb
  omega

/-- Witness for C3's amended theorem at a concrete body: headings
h1 "A", h2 "X", h1 "B" leave title "B", exactly the h2 emission in the
output, and a warning. -/
theorem c3_witness :
    (processHeadings ⟨[], [], 0⟩
      [(1, "A".data), (2, "X".data), (1, "B".data)]).title = "B".data ∧
    (processHeadings ⟨[], [], 0⟩
      [(1, "A".data), (2, "X".data), (1, "B".data)]).out =
        "<h2>X</h2>".data ∧
    1 ≤ (processHeadings ⟨[], [], 0⟩
      [(1, "A".data), (2, "X".data), (1, "B".data)]).warnings := by
  have h := c3_title_amended ⟨[], [], 0⟩
    [(1, "A".data), (2, "X".data), (1, "B".data)]
    [] [(2, "X".data), (1, "B".data)] "A".data rfl (by decide) (by decide)
  exact ⟨h.1.trans (by decide), h.2.1.trans (by decide), h.2.2⟩

/-! ## Per-document error accumulation (`postHtmlRenderer.Error`) -/

/-- `postHtmlRenderer.Error` from `src/post.go`: record the error only
when none has been recorded for this document's render yet. -/
def rendererError (acc : Option (List Char)) (e : List Char) :
    Option (List Char) :=
  match acc with
  | none => some e
  | some _ => acc

/-- The error `Post.Render` returns: the accumulator state after the
render's sequence of error events, folded from the initial empty state
of a fresh `newHtmlRenderer`. -/
def renderErr (errs : List (List Char)) : Option (List Char) :=
  errs.foldl rendererError none

/-- A recorded error is never displaced. -/
theorem renderErr_some (errs : List (List Char)) (x : List Char) :
    errs.foldl rendererError (some x) = some x := by
  induction errs with
  | nil => rfl
  | cons e rest ih => exact ih

/-- C4: the per-document error accumulator keeps only the first error of
a render — the returned error is the first error event — and once an
error is set, a later `Error` call leaves the accumulator unchanged. -/
theorem c4_first_error_wins (errs : List (List Char))
    (acc : Option (List Char)) (e : List Char) :
    renderErr errs = errs.head? ∧
    (acc.isSome = true → rendererError acc e = acc) := by
  constructor
  · match errs with
    | [] => rfl
    | x :: rest => exact renderErr_some rest x
  · intro hacc
    match acc, hacc with
    | some _, _ => rfl

/-- Witness for C4 at a concrete render: with error events "a" then "b",
the render returns "a", and recording "b" on an accumulator already
holding "a" changes nothing. -/
theorem c4_witness :
    renderErr ["a".data, "b".data] = some "a".data ∧
    rendererError (some "a".data) "b".data = some "a".data := by
  have h := c4_first_error_wins ["a".data, "b".data] (some "a".data) "b".data
  exact ⟨h.1, h.2 rfl⟩

/-! ## Image embedding (`postHtmlRenderer.Image`, `src/post.go`) -/

/-- `image.Config` from Go's image package: the probed pixel dimensions.
Decoded dimensions are nonnegative, so they are embedded as `Nat`. -/
structure ImgConfig where
  width : Nat
  height : Nat
deriving DecidableEq, Repr

/-- Go's `html.EscapeString` on one character: escapes ampersand, single
and double quote and angle brackets. -/
def htmlEscapeChar (c : Char) : List Char :=
  if c = '&' then "&amp;".data
  else if c = Char.ofNat 39 then "&#39;".data
  else if c = '<' then "&lt;".data
  else if c = '>' then "&gt;".data
  else if c = '"' then "&#34;".data
  else [c]

/-- Go's `html.EscapeString` lifted to strings. -/
def htmlEscapeString : List Char → List Char
  | [] => []
  | c :: rest => htmlEscapeChar c ++ htmlEscapeString rest

/-- The class-annotation extraction in `postHtmlRenderer.Image`: when the
alt text starts with an opening brace and contains a closing brace, the
text between the braces becomes a CSS class and is removed from the alt
text. -/
def extractClass (alt : List Char) : List Char × List Char :=
  match alt with
  | '{' :: _ =>
    match idxOfChar '}' alt with
    | some e => ((alt.take e).drop 1, alt.drop (e + 1))
    | none => ([], alt)
  | _ => ([], alt)

/-- The scaled-down height computed by `postHtmlRenderer.Image` when an
image is wider than the configured maximum:
`(Height*MaxImageWidth + Width/2) / Width`, in Go integer arithmetic. -/
def scaledHeight (maxW : Nat) (cfg : ImgConfig) : Nat :=
  (cfg.height * maxW + cfg.width / 2) / cfg.width

/-- The `<img>` element emitted by `postHtmlRenderer.Image`: escaped src
and alt, an optional title attribute, width/height attributes only when
both dimensions are positive, and an optional class attribute. -/
def imgTag (uri : List Char) (cfg : ImgConfig) (title alt cls : List Char) :
    List Char :=
  "<img src=\"".data ++ htmlEscapeString uri ++
    "\" alt=\"".data ++ htmlEscapeString alt ++
    (if 0 < title.length then "\" title=\"".data ++ htmlEscapeString title
     else []) ++
    ['"'] ++
    (if 0 < cfg.width ∧ 0 < cfg.height then
      " width=".data ++ (toString cfg.width).data ++
        " height=".data ++ (toString cfg.height).data
     else []) ++
    (if 0 < cls.length then
      " class=\"".data ++ htmlEscapeString cls ++ ['"']
     else []) ++
    ['>']

/-- `postHtmlRenderer.Image` from `src/post.go`, after image resolution:
given the resolved URI and probed dimensions (the filesystem lookup and
probe in `findImage` are external I/O and enter here as inputs), emit the
image element; when the probed width exceeds the configured maximum,
first open an anchor to the full-size URI, default the title, scale the
dimensions down to the maximum width, and close the anchor after the
image.  `none` models the Go panic of `handleMarkdownEscapes` on a
trailing lone backslash in alt or title. -/
def imageRender (maxW : Nat) (uri : List Char) (cfg : ImgConfig)
    (title alt : List Char) : Option (List Char) :=
  if maxW < cfg.width then
    let title' := if title = [] then "Click for full-size version.".data
      else title
    let cfg' : ImgConfig := ⟨maxW, scaledHeight maxW cfg⟩
    let pair := extractClass alt
    match handleMarkdownEscapes pair.2, handleMarkdownEscapes title' with
    | some ea, some et =>
        some ("<a href=\"".data ++ uri ++ "\">".data ++
          imgTag uri cfg' et ea pair.1 ++ "</a>".data)
    | _, _ => none
  else
    let pair := extractClass alt
    match handleMarkdownEscapes pair.2, handleMarkdownEscapes title with
    | some ea, some et => some (imgTag uri cfg et ea pair.1)
    | _, _ => none

set_option maxRecDepth 40000 in
/-- C5 counterexample: a 2000-by-1 image with configured maximum 700 is
wrapped in the full-size anchor, but the recomputed height rounds to 0,
so no width attribute is emitted at all — the output contains neither a
width attribute equal to the maximum nor the original width. -/
theorem c5_counterexample :
    imageRender 700 "i.png".data ⟨2000, 1⟩ [] [] =
      some ("<a href=\"i.png\"><img src=\"i.png\" alt=\"\" " ++
        "title=\"Click for full-size version.\"></a>").data ∧
    ¬((" width=".data : List Char) <:+:
      ("<a href=\"i.png\"><img src=\"i.png\" alt=\"\" " ++
        "title=\"Click for full-size version.\"></a>").data) := by
  constructor
  · decide
  · decide

/-- C5 (amended): when the probed width exceeds the configured maximum,
the output encloses the image element in an anchor linking to the
full-size asset URI, the dimensions are replaced by the configured
maximum and the aspect-preserving height rounded to nearest, and —
provided the maximum and the recomputed height are positive — the
emitted width attribute equals the configured maximum, which differs
from the original width; the original unscaled width is never emitted. -/
theorem c5_oversize_image_amended (maxW : Nat) (uri : List Char)
    (cfg : ImgConfig) (title alt ea et : List Char)
    (hover : maxW < cfg.width) (hmax : 0 < maxW)
    (hh : 0 < scaledHeight maxW cfg)
    (halt : handleMarkdownEscapes (extractClass alt).2 = some ea)
    (htit : handleMarkdownEscapes
      (if title = [] then "Click for full-size version.".data else title) =
        some et) :
    imageRender maxW uri cfg title alt =
      some ("<a href=\"".data ++ uri ++ "\">".data ++
        imgTag uri ⟨maxW, scaledHeight maxW cfg⟩ et ea (extractClass alt).1 ++
        "</a>".data) ∧
    (" width=".data ++ (toString maxW).data ++ " height=".data ++
        (toString (scaledHeight maxW cfg)).data) <:+:
      imgTag uri ⟨maxW, scaledHeight maxW cfg⟩ et ea (extractClass alt).1 ∧
    ¬(maxW = cfg.width) ∧
    scaledHeight maxW cfg * cfg.width ≤ cfg.height * maxW + cfg.width / 2 ∧
    cfg.height * maxW + cfg.width / 2 <
      (scaledHeight maxW cfg + 1) * cfg.width := by
  have hW : 0 < cfg.width := Nat.lt_of_le_of_lt (Nat.zero_le _) hover
  refine ⟨?_, ?_, Nat.ne_of_lt hover, ?_, ?_⟩
  · unfold imageRender
    rw [if_pos hover]
    simp only [halt, htit]
  · refine ⟨"<img src=\"".data ++ htmlEscapeString uri ++
      "\" alt=\"".data ++ htmlEscapeString ea ++
      (if 0 < et.length then "\" title=\"".data ++ htmlEscapeString et
       else []) ++ ['"'],
      (if 0 < (extractClass alt).1.length then
        " class=\"".data ++ htmlEscapeString (extractClass alt).1 ++ ['"']
       else []) ++ ['>'], ?_⟩
    simp [imgTag, hmax, hh, List.append_assoc]
  · exact Nat.div_mul_le_self _ _
  · exact (Nat.div_lt_iff_lt_mul hW).mp (Nat.lt_succ_self _)

set_option maxRecDepth 40000 in
/-- Witness for C5's amended theorem: a 4-by-4 image with configured
maximum 2 is emitted inside the full-size anchor with width 2 and
height 2. -/
theorem c5_witness :
    imageRender 2 "u".data ⟨4, 4⟩ [] [] =
      some ("<a href=\"u\"><img src=\"u\" alt=\"\" " ++
        "title=\"Click for full-size version.\" " ++
        "width=2 height=2></a>").data := by
  have h := c5_oversize_image_amended 2 "u".data ⟨4, 4⟩ [] [] []
    "Click for full-size version.".data
    (by decide) (by decide) (by decide) (by decide) (by decide)
  exact h.1.trans (by decide)

/-! ## Graph construction (`Blog.LinkPosts`, `src/main.go`) -/

/-- Go string comparison `<` (byte-wise lexicographic), used by the
`postsById` sort order in `src/main.go`. -/
def goStrLt : List Char → List Char → Bool
  | [], [] => false
  | [], _ :: _ => true
  | _ :: _, [] => false
  | a :: as, b :: bs => if a = b then goStrLt as bs else decide (a < b)

/-- Insertion step of the id sort. -/
def insertById (p : Post) : List Post → List Post
  | [] => [p]
  | q :: rest =>
    if goStrLt q.id p.id then q :: insertById p rest else p :: q :: rest

/-- The `sort.Sort(postsById(...))` call in `Blog.LinkPosts`: an
unstable comparison sort by increasing id, embedded as insertion sort
(any comparison sort satisfies Go's `sort.Sort` contract). -/
def sortById (posts : List Post) : List Post :=
  posts.foldr insertById []

/-- The error `Blog.LinkPosts` returns for an unresolvable parent id. -/
def parentErrMsg (pid parentId : PostID) : List Char :=
  goQuote pid ++ ": parent id ".data ++ goQuote parentId ++
    " does not correspond to an existing post.".data

/-- The per-post loop of `Blog.LinkPosts`: for every post with a
non-empty pending parent id, look the parent up by id in the full sorted
list (`Blog.FindPostById` searches `AllPosts`); a missing parent stops
the loop with an error. -/
def linkCheck (all : List Post) : List Post → Except (List Char) Unit
  | [] => Except.ok ()
  | post :: rest =>
    if post.parentId = [] then linkCheck all rest
    else
      match findPostById all post.parentId with
      | some _ => linkCheck all rest
      | none => Except.error (parentErrMsg post.id post.parentId)

/-- `Blog.LinkPosts` from `src/main.go`: sort all posts by id, then link
children to parents.  The index building (pages/posts-by-date partition,
date sort, series list, most-recent pointer) mutates only the blog's
index slices and cannot fail, so only the error-determining part is
embedded; the function's error result is exactly that of the per-post
parent-resolution loop. -/
def linkPosts (posts : List Post) : Except (List Char) Unit :=
  let sorted := sortById posts
  linkCheck sorted sorted

/-- Insertion preserves membership. -/
theorem mem_insertById (p q : Post) (l : List Post) :
    q ∈ insertById p l ↔ q = p ∨ q ∈ l := by
  induction l with
  | nil => simp [insertById]
  | cons x rest ih =>
    by_cases hlt : goStrLt x.id p.id = true
    · simp only [insertById, if_pos hlt, List.mem_cons, ih]
      tauto
    · simp only [insertById, if_neg hlt, List.mem_cons]

/-- Sorting preserves membership. -/
theorem mem_sortById (q : Post) (posts : List Post) :
    q ∈ sortById posts ↔ q ∈ posts := by
  induction posts with
  | nil => simp [sortById]
  | cons p rest ih =>
    show q ∈ insertById p (sortById rest) ↔ _
    rw [mem_insertById]
    simp [ih]

/-- A lookup succeeds exactly when some post carries the id. -/
theorem findPostById_isSome (posts : List Post) (which : PostID) :
    (findPostById posts which).isSome = true ↔
      ∃ q ∈ posts, q.id = which := by
  unfold findPostById
  rw [Option.isSome_iff_exists]
  constructor
  · rintro ⟨a, ha⟩
    exact ⟨a, List.mem_of_find?_eq_some ha,
      of_decide_eq_true
        (@List.find?_some Post (fun post => decide (post.id = which)) a posts ha)⟩
  · rintro ⟨q, hq, hid⟩
    have : posts.find? (fun post => decide (post.id = which)) ≠ none := by
      intro hnone
      have := List.find?_eq_none.mp hnone q hq
      simp [hid] at this
    rcases Option.ne_none_iff_exists.mp this with ⟨a, ha⟩
    exact ⟨a, ha.symm⟩

/-- The parent-resolution loop succeeds exactly when every pending
parent id resolves against the search list. -/
theorem linkCheck_ok_iff (all l : List Post) :
    linkCheck all l = Except.ok () ↔
      ∀ p ∈ l, p.parentId = [] ∨ ∃ q ∈ all, q.id = p.parentId := by
  induction l with
  | nil => simp [linkCheck]
  | cons post rest ih =>
    by_cases hpid : post.parentId = []
    · simp only [linkCheck, if_pos hpid, ih, List.mem_cons]
      constructor
      · intro h p hp
        rcases hp with rfl | hp
        · exact Or.inl hpid
        · exact h p hp
      · intro h p hp
        exact h p (Or.inr hp)
    · rw [show linkCheck all (post :: rest) =
        (match findPostById all post.parentId with
          | some _ => linkCheck all rest
          | none => Except.error (parentErrMsg post.id post.parentId)) from by
        simp [linkCheck, hpid]]
      rcases hfind : findPostById all post.parentId with _ | target
      · have hno : ¬∃ q ∈ all, q.id = post.parentId := by
          rw [← findPostById_isSome]
          simp [hfind]
        constructor
        · intro h
          exact Except.noConfusion h
        · intro h
          rcases h post (List.mem_cons_self post rest) with h1 | h2
          · exact absurd h1 hpid
          · exact absurd h2 hno
      · have hyes : ∃ q ∈ all, q.id = post.parentId := by
          rw [← findPostById_isSome, hfind]
          rfl
        rw [ih]
        constructor
        · intro h p hp
          rcases List.mem_cons.mp hp with rfl | hp
          · exact Or.inr hyes
          · exact h p hp
        · intro h p hp
          exact h p (List.mem_cons_of_mem post hp)

/-- C6 counterexample: two distinct documents sharing id "1" pass graph
construction — `Blog.LinkPosts` succeeds instead of failing the build. -/
theorem c6_counterexample :
    linkPosts [{ id := "1".data, title := "A".data },
               { id := "1".data, title := "B".data }] = Except.ok () ∧
    ({ id := "1".data, title := "A".data } : Post) ≠
      { id := "1".data, title := "B".data } ∧
    ({ id := "1".data, title := "A".data } : Post).id =
      ({ id := "1".data, title := "B".data } : Post).id := by
  refine ⟨rfl, by decide, rfl⟩

/-- C6 (amended): graph construction performs no duplicate-id check —
`Blog.LinkPosts` succeeds exactly when every document's non-empty pending
parent id resolves to some document in the set, regardless of whether
two distinct documents share an id; id uniqueness is not established by
graph construction. -/
theorem c6_linkposts_amended (posts : List Post) :
    linkPosts posts = Except.ok () ↔
      ∀ p ∈ posts, p.parentId = [] ∨ ∃ q ∈ posts, q.id = p.parentId := by
  unfold linkPosts
  rw [linkCheck_ok_iff]
  constructor
  · intro h p hp
    rcases h p ((mem_sortById p posts).mpr hp) with h1 | ⟨q, hq, hid⟩
    · exact Or.inl h1
    · exact Or.inr ⟨q, (mem_sortById q posts).mp hq, hid⟩
  · intro h p hp
    rcases h p ((mem_sortById p posts).mp hp) with h1 | ⟨q, hq, hid⟩
    · exact Or.inl h1
    · exact Or.inr ⟨q, (mem_sortById q posts).mpr hq, hid⟩

/-! ## Static-asset registry (`Blog.AddStaticFile`, `src/main.go`) -/

/-- The registry `Blog.files` (a Go map from destination path to source
path), embedded as an association list queried by first match. -/
def lookupReg (files : List (List Char × List Char)) (w : List Char) :
    Option (List Char) :=
  match files.find? (fun kv => decide (kv.1 = w)) with
  | some kv => some kv.2
  | none => none

/-- The error `Blog.AddStaticFile` returns on a conflicting
registration. -/
def dupPathMsg (webpath val srcpath : List Char) : List Char :=
  "Double definition for path ".data ++ goQuote webpath ++
    " - assigned to both ".data ++ goQuote val ++ " and ".data ++
    goQuote srcpath ++ ".".data

/-- `Blog.AddStaticFile` from `src/main.go`: a destination path already
mapped to a different source is a fatal error (the registry is returned
unchanged only through the error, no entry is written); an identical
re-registration is a no-op; a new destination path adds one mapping. -/
def addStaticFile (files : List (List Char × List Char))
    (webpath srcpath : List Char) :
    Except (List Char) (List (List Char × List Char)) :=
  match lookupReg files webpath with
  | some val =>
    if val ≠ srcpath then Except.error (dupPathMsg webpath val srcpath)
    else Except.ok files
  | none => Except.ok ((webpath, srcpath) :: files)

/-- C8: registering a destination path already present with a different
source is a fatal error; re-registering the same mapping succeeds and
leaves the registry unchanged; registering a new destination path adds
exactly that one mapping (the new path maps to the new source and every
other path's lookup is unchanged). -/
theorem c8_static_registry (files : List (List Char × List Char))
    (w s v w' : List Char) :
    (lookupReg files w = some v → ¬(v = s) →
      addStaticFile files w s = Except.error (dupPathMsg w v s)) ∧
    (lookupReg files w = some s →
      addStaticFile files w s = Except.ok files) ∧
    (lookupReg files w = none →
      addStaticFile files w s = Except.ok ((w, s) :: files) ∧
      lookupReg ((w, s) :: files) w = some s ∧
      (¬(w' = w) →
        lookupReg ((w, s) :: files) w' = lookupReg files w')) := by
  refine ⟨fun hl hne => ?_, fun hl => ?_, fun hl => ⟨?_, ?_, fun hne => ?_⟩⟩
  · unfold addStaticFile
    rw [hl]
    show (if v ≠ s then Except.error (dupPathMsg w v s) else Except.ok files) = _
    rw [if_pos hne]
  · unfold addStaticFile
    rw [hl]
    show (if s ≠ s then Except.error (dupPathMsg w s s) else Except.ok files) = _
    simp
  · unfold addStaticFile
    rw [hl]
  · simp [lookupReg, List.find?]
  · simp only [lookupReg, List.find?]
    rw [show (decide ((w, s).1 = w')) = false from
      decide_eq_false (fun h => hne (Eq.symm h))]

/-- Witness for C8 at concrete registries: a conflicting registration
errors, an identical one is a no-op, and a fresh one adds the mapping. -/
theorem c8_witness :
    addStaticFile [("a".data, "x".data)] "a".data "y".data =
      Except.error (dupPathMsg "a".data "x".data "y".data) ∧
    addStaticFile [("a".data, "x".data)] "a".data "x".data =
      Except.ok [("a".data, "x".data)] ∧
    addStaticFile [("a".data, "x".data)] "b".data "y".data =
      Except.ok [("b".data, "y".data), ("a".data, "x".data)] := by
  have h1 := (c8_static_registry [("a".data, "x".data)]
    "a".data "y".data "x".data []).1 (by decide) (by decide)
  have h2 := (c8_static_registry [("a".data, "x".data)]
    "a".data "x".data "x".data []).2.1 (by decide)
  have h3 := (c8_static_registry [("a".data, "x".data)]
    "b".data "y".data "x".data []).2.2 (by decide)
  exact ⟨h1, h2, h3.1⟩

/-! ## Front-matter parsing (`Post.parseContent`, `src/post.go`) -/

/-- The type of the time-value parser.  `parseTime` in `src/post.go`
tries Go's `time.Parse` over three layout strings; `time.Parse` is
external standard-library code, so the embedding is parameterized by the
time parser (`Nat` embeds `time.Time`, 0 = Go's zero value) and the
theorems below hold for every such parser. -/
abbrev TimeParser := List Char → Except (List Char) Nat

/-- `parseKeyValueLine` from `src/post.go`: split at the first `=`; no
`=` yields an empty key and value. -/
def parseKeyValueLine (line : List Char) : List Char × List Char :=
  match idxOfChar '=' line with
  | none => ([], [])
  | some i => (line.take i, line.drop (i + 1))

/-- The `docType` map from `src/post.go`. -/
def docType (value : List Char) : Option DocType :=
  if value = "post".data then some DocType.post
  else if value = "collection".data then some DocType.collection
  else if value = "page".data then some DocType.page
  else none

/-- The CRLF handling in `Post.parseContent`: a trailing carriage return
on a header line is stripped. -/
def stripCR (line : List Char) : List Char :=
  match line.getLast? with
  | some c => if c = '\r' then line.dropLast else line
  | none => line

/-- The line-splitting step of the `Post.parseContent` header loop: when
the remaining buffer contains a newline, the line is the bytes from
index 1 (dropping the sentinel) up to the newline and the buffer
advances past the newline; otherwise the line is the whole remaining
buffer (the Go code keeps the sentinel in this branch) and the buffer
becomes empty.  Trailing carriage returns are stripped either way. -/
def splitHeaderLine (rest : List Char) : List Char × List Char :=
  match idxOfChar '\n' rest with
  | some eol => (stripCR ((rest.take eol).drop 1), rest.drop (eol + 1))
  | none => (stripCR rest, [])

/-- A found index lies inside the list. -/
theorem idxOfChar_lt_length (c : Char) (l : List Char) (i : Nat)
    (h : idxOfChar c l = some i) : i < l.length := by
  induction l generalizing i with
  | nil => cases h
  | cons x xs ih =>
    unfold idxOfChar at h
    by_cases hx : x = c
    · rw [if_pos hx] at h
      cases h
      simp
    · rw [if_neg hx] at h
      cases hfind : idxOfChar c xs with
      | none =>
        rw [hfind] at h
        cases h
      | some j =>
        rw [hfind] at h
        have hij : j + 1 = i := by
          simpa using h
        have := ih j hfind
        simp only [List.length_cons]
        omega

/-- Splitting a nonempty buffer strictly shrinks the remainder. -/
theorem splitHeaderLine_length_lt (rest : List Char) (h : rest ≠ []) :
    (splitHeaderLine rest).2.length < rest.length := by
  unfold splitHeaderLine
  cases hfind : idxOfChar '\n' rest with
  | none =>
    simp only [hfind]
    simpa using List.length_pos.mpr h
  | some eol =>
    simp only [hfind, List.length_drop]
    have hlt := idxOfChar_lt_length '\n' rest eol hfind
    have hpos := List.length_pos.mpr h
    omega

/-- The `key == ""` error of `Post.parseContent`. -/
def illFormedMsg (pid : PostID) (line : List Char) : List Char :=
  goQuote pid ++ ": configuration line ".data ++ goQuote line ++
    " ill-formed".data

/-- The time-parse error wrapper of `Post.parseContent`. -/
def timeErrMsg (pid : PostID) (e : List Char) : List Char :=
  goQuote pid ++ ": ".data ++ e

/-- The unknown-type error of `Post.parseContent`. -/
def unknownTypeMsg (pid : PostID) (value : List Char) : List Char :=
  goQuote pid ++ ": unknown type ".data ++ goQuote value

/-- The unknown-property error of `Post.parseContent`. -/
def unknownPropMsg (pid : PostID) (key : List Char) : List Char :=
  goQuote pid ++ ": unknown property ".data ++ goQuote key

/-- The `switch key` of the `Post.parseContent` header loop, applied to
the already split key and value (Go assigns
`key, value := parseKeyValueLine(line)` first): an empty key is the
ill-formed-line error; `title`, `time`, `updated`, `type` and `parent`
update the corresponding field (with errors for unparseable times and
unknown types); any other key is an unknown-property error. -/
def applyKeyValue (pt : TimeParser) (post : Post) (line key value : List Char) :
    Except (List Char) Post :=
  if key = [] then Except.error (illFormedMsg post.id line)
  else if key = "title".data then Except.ok { post with title := value }
  else if key = "time".data then
    match pt value with
    | Except.ok t => Except.ok { post with published := t }
    | Except.error e => Except.error (timeErrMsg post.id e)
  else if key = "updated".data then
    match pt value with
    | Except.ok t => Except.ok { post with updated := t }
    | Except.error e => Except.error (timeErrMsg post.id e)
  else if key = "type".data then
    match docType value with
    | some ty => Except.ok { post with type := ty }
    | none => Except.error (unknownTypeMsg post.id value)
  else if key = "parent".data then Except.ok { post with parentId := value }
  else Except.error (unknownPropMsg post.id key)

/-- One header line of the `Post.parseContent` loop body. -/
def applyHeaderLine (pt : TimeParser) (post : Post) (line : List Char) :
    Except (List Char) Post :=
  applyKeyValue pt post line (parseKeyValueLine line).1 (parseKeyValueLine line).2

/-- The header loop of `Post.parseContent`: the Go loop condition is
`rest[0] == '-'`, which reads index 0 of the remaining buffer before any
length check — on an empty buffer this is an out-of-range index, embedded
as `none`.  While the head byte is the sentinel, one line is split off
and applied; the loop stops at the first non-sentinel head byte,
returning the accumulated post and the remaining buffer. -/
def headerLoop (pt : TimeParser) (post : Post) (rest : List Char) :
    Option (Except (List Char) (Post × List Char)) :=
  match rest with
  | [] => none
  | b :: tail =>
    if b = '-' then
      match applyHeaderLine pt post (splitHeaderLine (b :: tail)).1 with
      | Except.error e => some (Except.error e)
      | Except.ok post' => headerLoop pt post' (splitHeaderLine (b :: tail)).2
    else some (Except.ok (post, b :: tail))
termination_by rest.length
decreasing_by
  apply splitHeaderLine_length_lt
  exact List.cons_ne_nil _ _

/-- `Post.validate` from `src/post.go`: the title must be non-empty, and
a non-standalone document must have a non-zero publication time. -/
def validate (post : Post) : Except (List Char) Post :=
  if post.title = [] then
    Except.error (goQuote post.id ++ ": no title set.".data)
  else if post.standalone = false ∧ post.published = 0 then
    Except.error (goQuote post.id ++ ": no publication time set".data)
  else Except.ok post

/-- `Post.parseContent` from `src/post.go`: run the header loop from the
fresh post `NewPost` creates (only the id set); afterwards `updated`
defaults to `published` when never set, the remaining buffer becomes the
markdown body, and `validate` runs as the final step.  The outer `none`
is the out-of-range panic of the loop condition. -/
def parseContent (pt : TimeParser) (id0 : PostID) (contents : List Char) :
    Option (Except (List Char) Post) :=
  match headerLoop pt { id := id0 } contents with
  | none => none
  | some (Except.error e) => some (Except.error e)
  | some (Except.ok (post, rest)) =>
    some (validate
      { (if post.updated = 0 then { post with updated := post.published }
         else post) with markdown := rest })

/-- The keys of the sentinel header lines of a buffer, split by the same
line-splitting as the header loop. -/
def headerKeys : List Char → List (List Char)
  | [] => []
  | b :: tail =>
    if b = '-' then
      (parseKeyValueLine (splitHeaderLine (b :: tail)).1).1 ::
        headerKeys (splitHeaderLine (b :: tail)).2
    else []
termination_by x => x.length
decreasing_by
  apply splitHeaderLine_length_lt
  exact List.cons_ne_nil _ _

/-- A successfully applied line with a key other than `updated` leaves
the `updated` field unchanged. -/
theorem applyKeyValue_updated (pt : TimeParser) (post post' : Post)
    (line key value : List Char)
    (h : applyKeyValue pt post line key value = Except.ok post')
    (hk : ¬(key = "updated".data)) : post'.updated = post.updated := by
  unfold applyKeyValue at h
  by_cases h1 : key = []
  · rw [if_pos h1] at h
    exact Except.noConfusion h
  · rw [if_neg h1] at h
    by_cases h2 : key = "title".data
    · rw [if_pos h2] at h
      cases h
      rfl
    · rw [if_neg h2] at h
      by_cases h3 : key = "time".data
      · rw [if_pos h3] at h
        cases hpt : pt value with
        | ok tv =>
          rw [hpt] at h
          cases h
          rfl
        | error e =>
          rw [hpt] at h
          exact Except.noConfusion h
      · rw [if_neg h3, if_neg hk] at h
        by_cases h5 : key = "type".data
        · rw [if_pos h5] at h
          cases hdt : docType value with
          | some ty =>
            rw [hdt] at h
            cases h
            rfl
          | none =>
            rw [hdt] at h
            exact Except.noConfusion h
        · rw [if_neg h5] at h
          by_cases h6 : key = "parent".data
          · rw [if_pos h6] at h
            cases h
            rfl
          · rw [if_neg h6] at h
            exact Except.noConfusion h

/-- Over a run of header lines none of which carries the `updated` key,
the header loop leaves the `updated` field unchanged. -/
theorem headerLoop_updated (pt : TimeParser) (n : Nat) :
    ∀ (rest : List Char), rest.length ≤ n → ∀ (p0 p1 : Post) (r : List Char),
      headerLoop pt p0 rest = some (Except.ok (p1, r)) →
      ¬("updated".data ∈ headerKeys rest) → p1.updated = p0.updated := by
  induction n with
  | zero =>
    intro rest hlen p0 p1 r h hk
    have hnil : rest = [] := List.length_eq_zero.mp (Nat.le_zero.mp hlen)
    subst hnil
    simp [headerLoop] at h
  | succ n ih =>
    intro rest hlen p0 p1 r h hk
    match rest with
    | [] =>
      simp [headerLoop] at h
    | b :: tail =>
      simp only [headerLoop] at h
      by_cases hb : b = '-'
      · rw [if_pos hb] at h
        cases happ : applyHeaderLine pt p0 (splitHeaderLine (b :: tail)).1 with
        | error e =>
          rw [happ] at h
          simp at h
        | ok post' =>
          rw [happ] at h
          have hkeys : headerKeys (b :: tail) =
              (parseKeyValueLine (splitHeaderLine (b :: tail)).1).1 ::
                headerKeys (splitHeaderLine (b :: tail)).2 := by
            simp only [headerKeys]
            rw [if_pos hb]
          rw [hkeys] at hk
          have hk1 : ¬((parseKeyValueLine (splitHeaderLine (b :: tail)).1).1 =
              "updated".data) := by
            intro hcontra
            exact hk (by rw [hcontra]; exact List.mem_cons_self _ _)
          have hk2 : ¬("updated".data ∈ headerKeys (splitHeaderLine (b :: tail)).2) :=
            fun hm => hk (List.mem_cons_of_mem _ hm)
          have hlen' : (splitHeaderLine (b :: tail)).2.length ≤ n := by
            have := splitHeaderLine_length_lt (b :: tail) (List.cons_ne_nil b tail)
            simp only [List.length_cons] at this hlen
            omega
          have hrec := ih (splitHeaderLine (b :: tail)).2 hlen' post' p1 r h hk2
          have hstep := applyKeyValue_updated pt p0 post'
            (splitHeaderLine (b :: tail)).1
            (parseKeyValueLine (splitHeaderLine (b :: tail)).1).1
            (parseKeyValueLine (splitHeaderLine (b :: tail)).1).2 happ hk1
          rw [hrec, hstep]
      · rw [if_neg hb] at h
        have hp : p1 = p0 := by
          have := Option.some.inj h
          have := Except.ok.inj this
          exact (congrArg Prod.fst this).symm
        rw [hp]

/-- A passed validation pins the returned post and its invariants. -/
theorem validate_ok (q post : Post) (h : validate q = Except.ok post) :
    post = q ∧ ¬(post.title = []) ∧
      (post.standalone = false → ¬(post.published = 0)) := by
  unfold validate at h
  by_cases h1 : q.title = []
  · rw [if_pos h1] at h
    exact Except.noConfusion h
  · rw [if_neg h1] at h
    by_cases h2 : q.standalone = false ∧ q.published = 0
    · rw [if_pos h2] at h
      exact Except.noConfusion h
    · rw [if_neg h2] at h
      cases h
      refine ⟨rfl, h1, fun hs hp => h2 ⟨hs, hp⟩⟩

/-- C7: for every raw buffer on which front-matter parsing succeeds, if
no `updated` key occurs among the header lines then the document's
`updated` timestamp equals its `published` timestamp; the title is
non-empty; and every non-standalone document has a non-zero `published`
timestamp.  (Inputs violating the last two conditions take the
`validate` error branch instead, by the same case analysis.) -/
theorem c7_parse_validation (pt : TimeParser) (id0 : PostID)
    (contents : List Char) (post : Post)
    (h : parseContent pt id0 contents = some (Except.ok post)) :
    (¬("updated".data ∈ headerKeys contents) →
      post.updated = post.published) ∧
    ¬(post.title = []) ∧
    (post.standalone = false → ¬(post.published = 0)) := by
  unfold parseContent at h
  cases hloop : headerLoop pt { id := id0 } contents with
  | none =>
    rw [hloop] at h
    exact Option.noConfusion h
  | some res =>
    rw [hloop] at h
    cases res with
    | error e => simp at h
    | ok pr =>
      obtain ⟨p1, rest⟩ := pr
      have hval : validate
          { (if p1.updated = 0 then { p1 with updated := p1.published }
             else p1) with markdown := rest } = Except.ok post := by
        simpa using h
      obtain ⟨hpost, htitle, hpub⟩ := validate_ok _ post hval
      refine ⟨?_, htitle, hpub⟩
      intro hk
      have hupd : p1.updated = ({ id := id0 } : Post).updated :=
        headerLoop_updated pt contents.length contents (Nat.le_refl _)
          { id := id0 } p1 rest hloop hk
      have hzero : p1.updated = 0 := hupd
      rw [hpost]
      simp [if_pos hzero]

/-- Witness for C7: a buffer with `title` and `time` header lines and no
`updated` key parses to a post whose `updated` equals `published`, with
a non-empty title and non-zero publication time. -/
theorem c7_witness :
    parseContent (fun _ => Except.ok 5) "A".data
        "-title=T\n-time=x\nbody".data =
      some (Except.ok
        { id := "A".data, type := DocType.post, published := 5, updated := 5,
          title := "T".data, parentId := [], markdown := "body".data }) ∧
    ({ id := "A".data, type := DocType.post, published := 5, updated := 5,
        title := "T".data, parentId := [], markdown := "body".data } :
          Post).updated =
      ({ id := "A".data, type := DocType.post, published := 5, updated := 5,
          title := "T".data, parentId := [], markdown := "body".data} :
            Post).published ∧
    ¬(("updated".data : List Char) ∈
        headerKeys "-title=T\n-time=x\nbody".data) := by
  have hloop : headerLoop (fun _ => Except.ok 5) { id := "A".data }
      "-title=T\n-time=x\nbody".data =
      some (Except.ok
        ({ id := "A".data, title := "T".data, published := 5 },
          "body".data)) := by
    rw [show ("-title=T\n-time=x\nbody".data : List Char) =
      '-' :: "title=T\n-time=x\nbody".data from by decide]
    simp only [headerLoop]
    rw [if_pos trivial]
    rw [show applyHeaderLine (fun _ => Except.ok 5) { id := "A".data }
      (splitHeaderLine ('-' :: "title=T\n-time=x\nbody".data)).1 =
      Except.ok { id := "A".data, title := "T".data } from rfl]
    show headerLoop (fun _ => Except.ok 5)
      { id := "A".data, title := "T".data }
      (splitHeaderLine ('-' :: "title=T\n-time=x\nbody".data)).2 = _
    rw [show (splitHeaderLine ('-' :: "title=T\n-time=x\nbody".data)).2 =
      '-' :: "time=x\nbody".data from by decide]
    simp only [headerLoop]
    rw [if_pos trivial]
    rw [show applyHeaderLine (fun _ => Except.ok 5)
      { id := "A".data, title := "T".data }
      (splitHeaderLine ('-' :: "time=x\nbody".data)).1 =
      Except.ok { id := "A".data, title := "T".data, published := 5 }
      from rfl]
    show headerLoop (fun _ => Except.ok 5)
      { id := "A".data, title := "T".data, published := 5 }
      (splitHeaderLine ('-' :: "time=x\nbody".data)).2 = _
    rw [show (splitHeaderLine ('-' :: "time=x\nbody".data)).2 =
      'b' :: "ody".data from by decide]
    simp only [headerLoop]
    rw [if_neg (by decide : ¬('b' = '-'))]
  have hparse : parseContent (fun _ => Except.ok 5) "A".data
      "-title=T\n-time=x\nbody".data =
      some (Except.ok
        { id := "A".data, type := DocType.post, published := 5, updated := 5,
          title := "T".data, parentId := [], markdown := "body".data }) := by
    unfold parseContent
    rw [hloop]
    rfl
  have hkeyseq : headerKeys "-title=T\n-time=x\nbody".data =
      ["title".data, "time".data] := by
    rw [show ("-title=T\n-time=x\nbody".data : List Char) =
      '-' :: "title=T\n-time=x\nbody".data from by decide]
    simp only [headerKeys]
    rw [if_pos trivial]
    rw [show (splitHeaderLine ('-' :: "title=T\n-time=x\nbody".data)).2 =
      '-' :: "time=x\nbody".data from by decide]
    simp only [headerKeys]
    rw [if_pos trivial]
    rw [show (splitHeaderLine ('-' :: "time=x\nbody".data)).2 =
      'b' :: "ody".data from by decide]
    simp only [headerKeys]
    rw [if_neg (by decide : ¬('b' = '-'))]
    decide
  have hkeys : ¬(("updated".data : List Char) ∈
      headerKeys "-title=T\n-time=x\nbody".data) := by
    rw [hkeyseq]
    decide
  have h := c7_parse_validation (fun _ => Except.ok 5) "A".data
    "-title=T\n-time=x\nbody".data _ hparse
  exact ⟨hparse, h.1 hkeys, hkeys⟩

/-! ## Totality of the header loop (C10) -/

/-- Whether the `switch key` of the header loop accepts a key/value pair
without error (mirrors the error cases of `applyKeyValue`). -/
def goodKeyValue (pt : TimeParser) (key value : List Char) : Bool :=
  if key = [] then false
  else if key = "title".data then true
  else if key = "time".data then
    match pt value with
    | Except.ok _ => true
    | Except.error _ => false
  else if key = "updated".data then
    match pt value with
    | Except.ok _ => true
    | Except.error _ => false
  else if key = "type".data then (docType value).isSome
  else if key = "parent".data then true
  else false

/-- Whether a header line is processed without error. -/
def goodHeaderLine (pt : TimeParser) (line : List Char) : Bool :=
  goodKeyValue pt (parseKeyValueLine line).1 (parseKeyValueLine line).2

/-- A buffer consisting only of newline-terminated sentinel header
lines, each of which the header switch accepts. -/
def allSentinelLines (pt : TimeParser) : List Char → Bool
  | [] => true
  | b :: tail =>
    if b = '-' then
      match idxOfChar '\n' (b :: tail) with
      | some _ =>
        goodHeaderLine pt (splitHeaderLine (b :: tail)).1 &&
          allSentinelLines pt (splitHeaderLine (b :: tail)).2
      | none => false
    else false
termination_by x => x.length
decreasing_by
  apply splitHeaderLine_length_lt
  exact List.cons_ne_nil _ _

/-- An accepted key/value pair is applied without error. -/
theorem applyKeyValue_ok (pt : TimeParser) (key value : List Char)
    (hgood : goodKeyValue pt key value = true) (post : Post)
    (line : List Char) :
    ∃ post', applyKeyValue pt post line key value = Except.ok post' := by
  unfold goodKeyValue at hgood
  unfold applyKeyValue
  by_cases h1 : key = []
  · rw [if_pos h1] at hgood
    exact absurd hgood (by simp)
  · rw [if_neg h1] at hgood ⊢
    by_cases h2 : key = "title".data
    · rw [if_pos h2]
      exact ⟨_, rfl⟩
    · rw [if_neg h2] at hgood ⊢
      by_cases h3 : key = "time".data
      · rw [if_pos h3] at hgood ⊢
        cases hpt : pt value with
        | ok t => exact ⟨_, rfl⟩
        | error e =>
          rw [hpt] at hgood
          exact absurd hgood (by simp)
      · rw [if_neg h3] at hgood ⊢
        by_cases h4 : key = "updated".data
        · rw [if_pos h4] at hgood ⊢
          cases hpt : pt value with
          | ok t => exact ⟨_, rfl⟩
          | error e =>
            rw [hpt] at hgood
            exact absurd hgood (by simp)
        · rw [if_neg h4] at hgood ⊢
          by_cases h5 : key = "type".data
          · rw [if_pos h5] at hgood ⊢
            cases hdt : docType value with
            | some ty => exact ⟨_, rfl⟩
            | none =>
              rw [hdt] at hgood
              exact absurd hgood (by simp)
          · rw [if_neg h5] at hgood ⊢
            by_cases h6 : key = "parent".data
            · rw [if_pos h6]
              exact ⟨_, rfl⟩
            · rw [if_neg h6] at hgood
              exact absurd hgood (by simp)

/-- On a buffer of accepted, newline-terminated sentinel lines the
header loop always falls off the end of the buffer — the loop condition
`rest[0] == '-'` is then an out-of-range read, so no value and no error
is produced. -/
theorem headerLoop_none (pt : TimeParser) (n : Nat) :
    ∀ (rest : List Char), rest.length ≤ n →
      allSentinelLines pt rest = true →
      ∀ (post : Post), headerLoop pt post rest = none := by
  induction n with
  | zero =>
    intro rest hlen hall post
    have hnil : rest = [] := List.length_eq_zero.mp (Nat.le_zero.mp hlen)
    subst hnil
    simp [headerLoop]
  | succ n ih =>
    intro rest hlen hall post
    match rest with
    | [] => simp [headerLoop]
    | b :: tail =>
      simp only [allSentinelLines] at hall
      by_cases hb : b = '-'
      · rw [if_pos hb] at hall
        cases hidx : idxOfChar '\n' (b :: tail) with
        | none =>
          rw [hidx] at hall
          exact absurd hall (by simp)
        | some eol =>
          rw [hidx] at hall
          have hgood : goodHeaderLine pt (splitHeaderLine (b :: tail)).1 = true :=
            (Bool.and_eq_true_iff.mp hall).1
          have hrest : allSentinelLines pt (splitHeaderLine (b :: tail)).2 = true :=
            (Bool.and_eq_true_iff.mp hall).2
          simp only [headerLoop]
          rw [if_pos hb]
          obtain ⟨post', happ⟩ := applyKeyValue_ok pt
            (parseKeyValueLine (splitHeaderLine (b :: tail)).1).1
            (parseKeyValueLine (splitHeaderLine (b :: tail)).1).2
            hgood post (splitHeaderLine (b :: tail)).1
          rw [show applyHeaderLine pt post (splitHeaderLine (b :: tail)).1 =
            Except.ok post' from happ]
          show headerLoop pt post' (splitHeaderLine (b :: tail)).2 = none
          have hlen' : (splitHeaderLine (b :: tail)).2.length ≤ n := by
            have := splitHeaderLine_length_lt (b :: tail) (List.cons_ne_nil b tail)
            simp only [List.length_cons] at this hlen
            omega
          exact ih (splitHeaderLine (b :: tail)).2 hlen' hrest post'
      · rw [if_neg hb] at hall
        exact absurd hall (by simp)

/-- C10: the header loop of `Post.parseContent` reads `rest[0]` before
any length check, so on the empty buffer, and on any buffer consisting
only of newline-terminated sentinel header lines each of which the
header switch accepts, `parseContent` performs an out-of-range index
access (modelled as `none`) instead of returning a document or an
error. -/
theorem c10_header_loop_oob (pt : TimeParser) (id0 : PostID)
    (contents : List Char)
    (hall : allSentinelLines pt contents = true) :
    parseContent pt id0 contents = none := by
  unfold parseContent
  rw [headerLoop_none pt contents.length contents (Nat.le_refl _) hall
    { id := id0 }]

/-- Witness for C10: the empty buffer and the single complete header
line `-title=x` followed by a newline both make `parseContent` hit the
out-of-range read. -/
theorem c10_witness :
    parseContent (fun _ => Except.ok 1) "A".data [] = none ∧
    parseContent (fun _ => Except.ok 1) "A".data "-title=x\n".data = none := by
  constructor
  · exact c10_header_loop_oob (fun _ => Except.ok 1) "A".data []
      (by simp [allSentinelLines])
  · apply c10_header_loop_oob
    rw [show ("-title=x\n".data : List Char) =
      '-' :: "title=x\n".data from by decide]
    simp only [allSentinelLines]
    rw [if_pos trivial]
    rw [show idxOfChar '\n' ('-' :: "title=x\n".data) = some 8 from by decide]
    show (goodHeaderLine (fun _ => Except.ok 1)
        (splitHeaderLine ('-' :: "title=x\n".data)).1 &&
      allSentinelLines (fun _ => Except.ok 1)
        (splitHeaderLine ('-' :: "title=x\n".data)).2) = true
    rw [show (splitHeaderLine ('-' :: "title=x\n".data)).2 =
      ([] : List Char) from by decide]
    simp only [allSentinelLines, Bool.and_true]
    decide

end Block
